import Mathlib

/-!
Shallow embedding of the SlashVibeRepo relay service (main.go) in Lean 4.

The source is a single Go file whose core is the view-submission handler:
it flattens a nested Slack view-submission payload into field values,
validates the repository name, builds a `PoppitCommand` task descriptor
(three shell command strings), pushes it to a Redis task list, and then
pushes a confirmation `SlackLinerMessage` to a Redis notification list.

Go strings are modelled as Lean `String` (Go ranges over a string by runes,
which correspond to Lean `Char`; Go's `len` on a string counts UTF-8 bytes,
modelled below by `goLen`).  Go maps are modelled as association lists:
an association list fixes one concrete iteration order of the map, which Go
deliberately leaves unspecified; where a claim depends on iteration order
the order-independence is stated explicitly via permutations of entries.
Redis pushes are modelled as a trace of attempted pushes, each tagged with a
Boolean saying whether the push succeeded (failure injection for the two
outbound RPush calls).
-/

/-- The single-quote character `'` (code point 39), written via `Char.ofNat`. -/
def qc : Char := Char.ofNat 39

/-- The backslash character `\` (code point 92). -/
def bs : Char := Char.ofNat 92

/-- The backtick character (code point 96), a POSIX command-substitution metacharacter. -/
def btk : Char := Char.ofNat 96

/-- main.go line 19: `SevenDaysTTL = 7 * 24 * 60 * 60`. -/
def SevenDaysTTL : Nat := 7 * 24 * 60 * 60

/-- main.go line 21: `NewRepoModalCallbackID = "create_github_repo_modal"`. -/
def NewRepoModalCallbackID : String := "create_github_repo_modal"

/-- The character test inside the loop of `isValidRepoName` (main.go line 524):
`(c >= 'a' && c <= 'z') || (c >= 'A' && c <= 'Z') || (c >= '0' && c <= '9') ||
c == '-' || c == '_' || c == '.'`.  Go compares runes by code point, exactly
the `Char` order used here. -/
def validRepoChar (c : Char) : Bool :=
  (decide ('a' ≤ c) && decide (c ≤ 'z')) ||
  (decide ('A' ≤ c) && decide (c ≤ 'Z')) ||
  (decide ('0' ≤ c) && decide (c ≤ '9')) ||
  c == '-' || c == '_' || c == '.'

/-- Number of bytes of the UTF-8 encoding of a scalar value, used to model
Go's `len` on strings (which counts bytes, not runes). -/
def utf8Len (c : Char) : Nat :=
  if c ≤ Char.ofNat 0x7F then 1
  else if c ≤ Char.ofNat 0x7FF then 2
  else if c ≤ Char.ofNat 0xFFFF then 3
  else 4

/-- Go's `len` on a string: the UTF-8 byte length of its list of runes. -/
def goLen (l : List Char) : Nat := (l.map utf8Len).sum

/-- main.go lines 519-529 (`isValidRepoName`): reject the empty string and
strings longer than 100 bytes, then require every rune to pass the
character-class test. -/
def isValidRepoName (name : String) : Bool :=
  if name = "" ∨ goLen name.data > 100 then false
  else name.data.all validRepoChar

/-- main.go line 423: `strings.ReplaceAll(repoDesc, "'", "'\''")` at the level
of rune lists: each single quote becomes the four characters `'\''`, every
other character is kept. -/
def escapeQuotes : List Char → List Char
  | [] => []
  | c :: rest => (if c = qc then [qc, bs, qc, qc] else [c]) ++ escapeQuotes rest

/-- The escaper lifted to `String`, as applied to the description field. -/
def escapeDesc (s : String) : String := String.mk (escapeQuotes s.data)

/-- Characters that, unquoted, stop a POSIX word or trigger an expansion:
blank, tab, newline, double quote, dollar, backtick. -/
def posixMeta (c : Char) : Bool :=
  c == ' ' || c == Char.ofNat 9 || c == Char.ofNat 10 || c == Char.ofNat 34 ||
  c == '$' || c == btk

/-- Reference model of POSIX shell evaluation of one word built from
single-quoted segments and backslash escapes.  The Boolean state says whether
we are inside single quotes.  Outside quotes: a single quote opens a quoted
segment, a backslash makes the next character literal, a metacharacter means
the input is not one literal word (`none`), any other character is literal.
Inside quotes every character is literal until the closing quote; an
unterminated quote is an error. -/
def posixEval : Bool → List Char → Option (List Char)
  | false, [] => some []
  | false, c :: rest =>
      if c = qc then posixEval true rest
      else if c = bs then
        match rest with
        | [] => none
        | d :: rest2 => (posixEval false rest2).map (fun t => d :: t)
      else if posixMeta c then none
      else (posixEval false rest).map (fun t => c :: t)
  | true, [] => none
  | true, c :: rest =>
      if c = qc then posixEval false rest
      else (posixEval true rest).map (fun t => c :: t)

/-- One submitted form value: main.go lines 113-116, the
`{type, value}` record at the leaves of `view.state.values`. -/
structure ViewValue where
  type : String
  value : String
deriving DecidableEq

/-- `view.state` of a view submission: the nested map
group-name ↦ field-name ↦ value record, modelled as association lists
(one fixed iteration order of each Go map). -/
structure ViewState where
  values : List (String × List (String × ViewValue))
deriving DecidableEq

/-- `view` of a view submission payload (current revision, with callback id). -/
structure View where
  callbackID : String
  state : ViewState
deriving DecidableEq

/-- main.go lines 108-119 (`ViewSubmissionPayload`), current revision. -/
structure ViewSubmissionPayload where
  type : String
  view : View
deriving DecidableEq

/-- The loop body of `extractViewValues` (main.go lines 504-512) over the
outer map: for each block take the first field value in iteration order
(the inner `for ... { result[blockID] = valueObj.Value; break }`),
skipping blocks with no fields. -/
def flattenValues (vs : List (String × List (String × ViewValue))) :
    List (String × String) :=
  vs.filterMap fun gv =>
    match gv.2 with
    | [] => none
    | av :: _ => some (gv.1, av.2.value)

/-- main.go lines 501-515 (`extractViewValues`). -/
def extractViewValues (sub : ViewSubmissionPayload) : List (String × String) :=
  flattenValues sub.view.state.values

/-- All (group, field, value) triples of a submission's nested map.
Two association-list representations of the same Go map (whose keys are
necessarily distinct) carry the same multiset of such triples. -/
def stateEntries (sub : ViewSubmissionPayload) :
    List (String × String × ViewValue) :=
  sub.view.state.values.flatMap fun gv => gv.2.map fun av => (gv.1, av.1, av.2)

/-- Two payloads denote the same Go value: equal scalar fields, and the
nested maps have the same entries up to iteration order. -/
def SameGoMap (s1 s2 : ViewSubmissionPayload) : Prop :=
  s1.type = s2.type ∧ s1.view.callbackID = s2.view.callbackID ∧
  (stateEntries s1).Perm (stateEntries s2)

/-- The configuration fields read by the submission handler
(main.go lines 138-150, restricted to what the handler uses). -/
structure Config where
  githubOrg : String
  workingDir : String
  slackChannelNewRepo : String

/-- main.go lines 122-128 (`PoppitCommand`). -/
structure PoppitCommand where
  repo : String
  branch : String
  type : String
  dir : String
  commands : List String
deriving DecidableEq

/-- main.go lines 131-135 (`SlackLinerMessage`). -/
structure SlackLinerMessage where
  channel : String
  text : String
  ttl : Nat
deriving DecidableEq

/-- main.go lines 420-425: the `gh repo create` command string, with the
description appended, single-quoted and escaped, iff it is non-empty. -/
def ghRepoCreateCmd (repoFullName repoDesc : String) : String :=
  let base := "gh repo create " ++ repoFullName ++ " --public --add-readme --gitignore Go"
  if repoDesc = "" then base
  else base ++ " --description " ++ String.mk [qc] ++ escapeDesc repoDesc ++ String.mk [qc]

/-- main.go lines 417-442: the task descriptor built from the organisation,
validated repository name, optional description and working directory —
`repo = org/name`, fixed branch and type, and the three commands
create, clone, init in that order. -/
def buildPoppitCommand (org name desc dir : String) : PoppitCommand :=
  let repoFullName := org ++ "/" ++ name
  { repo := repoFullName
    branch := "refs/heads/main"
    type := "slash-vibe-new-repo"
    dir := dir
    commands :=
      [ ghRepoCreateCmd repoFullName desc
      , "gh repo clone " ++ repoFullName
      , "gh vibe init " ++ repoFullName ] }

/-- main.go lines 467-473: the confirmation text — success preamble, a
`<url|name>` link built from the fixed base URL, and a description line
appended iff the description is non-empty.  (The source file's preamble
glyph is the three characters U+00E2 U+0153 U+2026, reproduced here
byte for byte.) -/
def confirmationText (repoFullName repoDesc : String) : String :=
  let repoURL := "https://github.com/" ++ repoFullName
  let base := "âœ… New repository creation initiated!\n\n*Repository:* <" ++
    repoURL ++ "|" ++ repoFullName ++ ">"
  if repoDesc = "" then base
  else base ++ "\n*Description:* " ++ repoDesc

/-- One attempted Redis push: either the task descriptor to the Poppit list
or the notification message to the SlackLiner list. -/
inductive Push where
  | task (cmd : PoppitCommand)
  | notif (msg : SlackLinerMessage)
deriving DecidableEq

/-- main.go lines 465-497 (`sendNewRepoConfirmation`): build the
`SlackLinerMessage` with the 7-day TTL and attempt one push to the
SlackLiner list.  (`json.Marshal` of this struct cannot fail and is not
modelled; push failure is injected through `notifOk`.) -/
def sendNewRepoConfirmation (cfg : Config) (repoFullName repoDesc : String)
    (notifOk : Bool) : List (Push × Bool) :=
  [(Push.notif
      { channel := cfg.slackChannelNewRepo
        text := confirmationText repoFullName repoDesc
        ttl := SevenDaysTTL }, notifOk)]

/-- main.go lines 382-462 (`handleViewSubmission`) after JSON decoding:
discard on callback-id mismatch, missing/empty/invalid `repo-name`;
otherwise build the task descriptor, attempt the task push, and only on its
success run `sendNewRepoConfirmation`.  The result is the ordered trace of
attempted pushes, each with its injected outcome (`taskOk`, `notifOk`). -/
def handleViewSubmission (cfg : Config) (sub : ViewSubmissionPayload)
    (taskOk notifOk : Bool) : List (Push × Bool) :=
  if sub.view.callbackID ≠ NewRepoModalCallbackID then []
  else
    let values := extractViewValues sub
    match values.lookup ("repo-name") with
    | none => []
    | some repoName =>
      if repoName = "" then []
      else if ¬ isValidRepoName repoName then []
      else
        let repoDesc := (values.lookup ("repo-description")).getD ""
        let poppitCmd := buildPoppitCommand cfg.githubOrg repoName repoDesc cfg.workingDir
        (Push.task poppitCmd, taskOk) ::
          (if taskOk then
            sendNewRepoConfirmation cfg (cfg.githubOrg ++ "/" ++ repoName) repoDesc notifOk
          else [])

/-! ### Older appended revision of the same file

main.go lines 530-918 hold an earlier revision of the service.  Its
`ViewSubmissionPayload` (lines 563-573) has no `callback_id` field; its
`extractViewValues` (lines 890-904) and `isValidRepoName` (lines 908-918)
are transcribed below independently from that revision's text. -/

/-- Older revision, `view` of the payload: only the nested state map. -/
structure ViewV0 where
  state : ViewState
deriving DecidableEq

/-- main.go lines 563-573: the older `ViewSubmissionPayload`. -/
structure ViewSubmissionPayloadV0 where
  type : String
  view : ViewV0
deriving DecidableEq

/-- main.go lines 890-904: the older `extractViewValues` — for each block,
the first field's value in iteration order, skipping empty blocks. -/
def extractViewValuesV0 (sub : ViewSubmissionPayloadV0) : List (String × String) :=
  sub.view.state.values.filterMap fun gv =>
    match gv.2 with
    | [] => none
    | av :: _ => some (gv.1, av.2.value)

/-- main.go lines 908-918: the older `isValidRepoName` — identical text to
the current revision, transcribed separately. -/
def isValidRepoNameV0 (name : String) : Bool :=
  if name = "" ∨ goLen name.data > 100 then false
  else name.data.all validRepoChar

/-! ### Helper lemmas -/

/-- Every character passing the validator's class test is at most `'z'`
(code point 122), the largest code point mentioned by any branch. -/
theorem validRepoChar_le (c : Char) (h : validRepoChar c = true) : c ≤ 'z' := by
  simp only [validRepoChar, Bool.or_eq_true, Bool.and_eq_true, decide_eq_true_eq,
    beq_iff_eq] at h
  rcases h with ((((⟨h1, h2⟩ | ⟨h1, h2⟩) | ⟨h1, h2⟩) | rfl) | rfl) | rfl
  · exact h2
  · exact le_trans h2 (by decide)
  · exact le_trans h2 (by decide)
  · decide
  · decide
  · decide

/-- Characters of the validator's class are ASCII, hence one UTF-8 byte. -/
theorem utf8Len_eq_one_of_valid (c : Char) (h : validRepoChar c = true) :
    utf8Len c = 1 := by
  have hle : c ≤ Char.ofNat 0x7F := le_trans (validRepoChar_le c h) (by decide)
  unfold utf8Len
  rw [if_pos hle]

/-- Every character occupies at least one UTF-8 byte. -/
theorem one_le_utf8Len (c : Char) : 1 ≤ utf8Len c := by
  unfold utf8Len
  repeat' split
  all_goals decide

/-- The rune count of a string never exceeds its UTF-8 byte count. -/
theorem length_le_goLen (l : List Char) : l.length ≤ goLen l := by
  induction l with
  | nil => simp [goLen]
  | cons c rest ih =>
      have h1 := one_le_utf8Len c
      simp only [goLen, List.map_cons, List.sum_cons, List.length_cons]
      simp only [goLen] at ih
      omega

/-- On strings made only of validator-class characters, Go's byte length
agrees with the rune count. -/
theorem goLen_eq_length_of_valid (l : List Char)
    (h : ∀ c ∈ l, validRepoChar c = true) : goLen l = l.length := by
  induction l with
  | nil => simp [goLen]
  | cons c rest ih =>
      have h1 := utf8Len_eq_one_of_valid c (h c (List.mem_cons_self c rest))
      have h2 := ih fun d hd => h d (List.mem_cons_of_mem c hd)
      simp only [goLen, List.map_cons, List.sum_cons, List.length_cons] at *
      omega

/-- A name accepted by the validator has every rune in the class. -/
theorem isValidRepoName_all (name : String) (h : isValidRepoName name = true) :
    ∀ c ∈ name.data, validRepoChar c = true := by
  unfold isValidRepoName at h
  split at h
  · exact absurd h (by decide)
  · exact List.all_eq_true.mp h

/-- The single-quote character is not in the validator's class. -/
theorem validRepoChar_ne_qc (c : Char) (h : validRepoChar c = true) : c ≠ qc := by
  intro he
  subst he
  exact absurd h (by decide)

/-- Membership transfers from a contiguous part of a list to the list. -/
theorem mem_of_part {α : Type} {l₁ l₂ : List α} (h : l₁ <:+: l₂) {a : α}
    (ha : a ∈ l₁) : a ∈ l₂ := by
  obtain ⟨s, t, rfl⟩ := h
  simp only [List.mem_append]
  exact Or.inl (Or.inr ha)

/-- Two lists ending in a distinguished element: if the first is a suffix of
the second, the final elements agree. -/
theorem sfx_last {α : Type} {a b : α} {l₁ l₂ : List α}
    (h : (l₁ ++ [a]) <:+ (l₂ ++ [b])) : a = b := by
  obtain ⟨t, ht⟩ := h
  have h2 : ((t ++ l₁) ++ [a]).getLast? = (l₂ ++ [b]).getLast? := by
    rw [List.append_assoc]
    exact congrArg _ ht
  rw [List.getLast?_concat, List.getLast?_concat] at h2
  exact Option.some.inj h2

/-! ### C2 — validator totality -/

/-- C2: `isValidRepoName` is a total pass/fail predicate — it returns `false`
exactly when the input is empty, longer than 100 characters, or contains a
character outside the class `[A-Za-z0-9._-]`; in particular 100 `'a'`
characters pass and 101 fail.  (The source compares Go's `len`, a byte
count, against 100; on the character-count reading of the claim the two
agree because every class character is one byte and any multi-byte rune is
itself outside the class.) -/
theorem C2_validator_totality :
    (∀ name : String, isValidRepoName name = false ↔
      (name = "" ∨ 100 < name.data.length ∨ ∃ c ∈ name.data, validRepoChar c = false)) ∧
    isValidRepoName (String.mk (List.replicate 100 'a')) = true ∧
    isValidRepoName (String.mk (List.replicate 101 'a')) = false := by
  refine ⟨fun name => ?_, by decide, by decide⟩
  unfold isValidRepoName
  by_cases hcond : name = "" ∨ goLen name.data > 100
  · rw [if_pos hcond]
    simp only [true_iff]
    rcases hcond with he | hlen
    · exact Or.inl he
    · by_cases hall : ∀ c ∈ name.data, validRepoChar c = true
      · refine Or.inr (Or.inl ?_)
        have := goLen_eq_length_of_valid name.data hall
        omega
      · push_neg at hall
        obtain ⟨c, hm, hc⟩ := hall
        exact Or.inr (Or.inr ⟨c, hm, by simpa using hc⟩)
  · rw [if_neg hcond]
    push_neg at hcond
    obtain ⟨hne, hlen⟩ := hcond
    constructor
    · intro h
      refine Or.inr (Or.inr ?_)
      have hnall : ¬ ∀ c ∈ name.data, validRepoChar c = true := by
        intro hall
        rw [← List.all_eq_true] at hall
        rw [h] at hall
        exact Bool.noConfusion hall
      push_neg at hnall
      obtain ⟨c, hm, hc⟩ := hnall
      exact ⟨c, hm, by simpa using hc⟩
    · intro h
      rcases h with he | hlen2 | ⟨c, hm, hc⟩
      · exact absurd he hne
      · exfalso
        have := length_le_goLen name.data
        omega
      · rw [Bool.eq_false_iff]
        intro hall
        rw [List.all_eq_true] at hall
        have hct := hall c hm
        rw [hc] at hct
        exact Bool.noConfusion hct

/-! ### C3 — escaper and POSIX round trip -/

/-- The empty word evaluates to the empty string. -/
theorem posixEval_false_nil : posixEval false [] = some [] := by
  rw [posixEval.eq_def]

/-- Single-step evaluation: inside quotes, a quote closes the segment. -/
theorem posixEval_true_qc (r : List Char) :
    posixEval true (qc :: r) = posixEval false r := by
  rw [posixEval.eq_def]
  simp

/-- Inside quotes, a non-quote character is taken literally. -/
theorem posixEval_true_other (c : Char) (r : List Char) (h : c ≠ qc) :
    posixEval true (c :: r) = (posixEval true r).map (fun t => c :: t) := by
  rw [posixEval.eq_def]
  simp [h]

/-- Outside quotes, a single quote opens a quoted segment. -/
theorem posixEval_false_qc (r : List Char) :
    posixEval false (qc :: r) = posixEval true r := by
  rw [posixEval.eq_def]
  simp

/-- Outside quotes, a backslash makes the following character literal. -/
theorem posixEval_false_bs (d : Char) (r : List Char) :
    posixEval false (bs :: d :: r) = (posixEval false r).map (fun t => d :: t) := by
  have h1 : ¬ (bs = qc) := by decide
  rw [posixEval.eq_def]
  simp [h1]

/-- Core invariant of the escaper: from inside an open quote, the escaped
text followed by a closing quote evaluates back to the original text. -/
theorem posixEval_escapeQuotes (l : List Char) :
    posixEval true (escapeQuotes l ++ [qc]) = some l := by
  induction l with
  | nil =>
      show posixEval true (qc :: []) = some []
      rw [posixEval_true_qc, posixEval_false_nil]
  | cons c rest ih =>
      by_cases hc : c = qc
      · subst hc
        have hsh : escapeQuotes (qc :: rest) ++ [qc] =
            qc :: bs :: qc :: qc :: (escapeQuotes rest ++ [qc]) := by
          simp [escapeQuotes]
        rw [hsh, posixEval_true_qc, posixEval_false_bs, posixEval_false_qc, ih]
        rfl
      · have hsh : escapeQuotes (c :: rest) ++ [qc] =
            c :: (escapeQuotes rest ++ [qc]) := by
          simp [escapeQuotes, hc]
        rw [hsh, posixEval_true_other c _ hc, ih]
        rfl

/-- C3: the escaper distributes over concatenation, maps a single quote to
the four characters `'\''` and leaves any other character unchanged; and
wrapping the escaped string in single quotes and evaluating it under the
POSIX single-quote model yields exactly the original string, as in the
example `It's mine` ↦ `It'\''s mine`. -/
theorem C3_escaper_roundtrip :
    (∀ l₁ l₂ : List Char,
      escapeQuotes (l₁ ++ l₂) = escapeQuotes l₁ ++ escapeQuotes l₂) ∧
    (∀ c : Char, escapeQuotes [c] = if c = qc then [qc, bs, qc, qc] else [c]) ∧
    (∀ s : String,
      posixEval false (String.mk [qc] ++ escapeDesc s ++ String.mk [qc]).data =
        some s.data) ∧
    escapeDesc ("It's mine") = "It'\\''s mine" := by
  refine ⟨fun l₁ l₂ => ?_, fun c => ?_, fun s => ?_, by decide⟩
  · induction l₁ with
    | nil => rfl
    | cons c rest ih => simp [escapeQuotes, ih]
  · simp [escapeQuotes]
  · have hd : (String.mk [qc] ++ escapeDesc s ++ String.mk [qc]).data =
        qc :: (escapeQuotes s.data ++ [qc]) := by
      rw [String.data_append, String.data_append]
      rfl
    rw [hd, posixEval_false_qc, posixEval_escapeQuotes]

/-- `String.mk` and `String.data` are mutually inverse projections. -/
theorem data_mk (l : List Char) : (String.mk l).data = l := rfl

/-! ### C1 — task descriptor shape -/

/-- C1: for a quote-free owner and a validator-accepted name, the task
descriptor built for a submission has exactly the three commands
create, clone, init in that order, branch `refs/heads/main` and type
`slash-vibe-new-repo`; the create command contains the escaped description
wrapped in single quotes iff the description is non-empty, and with an
empty description it is exactly the base `gh repo create` command. -/
theorem C1_builder_commands (org name desc dir : String)
    (horg : qc ∉ org.data) (hname : isValidRepoName name = true) :
    (buildPoppitCommand org name desc dir).commands =
      [ ghRepoCreateCmd (org ++ "/" ++ name) desc
      , "gh repo clone " ++ (org ++ "/" ++ name)
      , "gh vibe init " ++ (org ++ "/" ++ name) ] ∧
    (buildPoppitCommand org name desc dir).commands.length = 3 ∧
    (buildPoppitCommand org name desc dir).branch = "refs/heads/main" ∧
    (buildPoppitCommand org name desc dir).type = "slash-vibe-new-repo" ∧
    ((String.mk [qc] ++ escapeDesc desc ++ String.mk [qc]).data <:+:
        (ghRepoCreateCmd (org ++ "/" ++ name) desc).data ↔ desc ≠ "") ∧
    (desc = "" → ghRepoCreateCmd (org ++ "/" ++ name) desc =
      "gh repo create " ++ (org ++ "/" ++ name) ++ " --public --add-readme --gitignore Go") := by
  refine ⟨rfl, rfl, rfl, rfl, ⟨?_, ?_⟩, fun hd => by simp [ghRepoCreateCmd, hd]⟩
  · intro hinf hd
    subst hd
    have hpat : (String.mk [qc] ++ escapeDesc "" ++ String.mk [qc]).data = [qc, qc] := by
      rw [String.data_append, String.data_append]
      rfl
    rw [hpat] at hinf
    have hq : qc ∈ (ghRepoCreateCmd (org ++ "/" ++ name) "").data :=
      mem_of_part hinf (by simp)
    have hbase : ghRepoCreateCmd (org ++ "/" ++ name) "" =
        "gh repo create " ++ (org ++ "/" ++ name) ++
          " --public --add-readme --gitignore Go" := by
      simp [ghRepoCreateCmd]
    rw [hbase] at hq
    simp only [String.data_append, List.mem_append] at hq
    rcases hq with (h | ((h | h) | h)) | h
    · exact absurd h (by decide)
    · exact horg h
    · exact absurd h (by decide)
    · exact validRepoChar_ne_qc qc (isValidRepoName_all name hname qc h) rfl
    · exact absurd h (by decide)
  · intro hd
    refine ⟨("gh repo create " ++ (org ++ "/" ++ name) ++
      " --public --add-readme --gitignore Go" ++ " --description ").data, [], ?_⟩
    simp [ghRepoCreateCmd, hd, String.data_append, data_mk, escapeDesc,
      List.append_assoc]

/-- Closed instance of C1 at owner `acme`, name `widget`, empty description:
the hypotheses hold, the empty-description create command has the exact base
form, and concretely equals the claim's example string. -/
theorem C1_builder_commands_witness :
    (qc ∉ ("acme" : String).data ∧ isValidRepoName ("widget") = true) ∧
    ghRepoCreateCmd ("acme" ++ "/" ++ "widget") ("") =
      "gh repo create " ++ ("acme" ++ "/" ++ "widget") ++
        " --public --add-readme --gitignore Go" ∧
    ghRepoCreateCmd ("acme/widget") ("") =
      "gh repo create acme/widget --public --add-readme --gitignore Go" :=
  ⟨⟨by decide, by decide⟩,
   (C1_builder_commands ("acme") ("widget") ("") ("/tmp") (by decide)
      (by decide)).2.2.2.2.2 rfl,
   by decide⟩

/-! ### C5 — confirmation record -/

/-- C5: the notification built by `sendNewRepoConfirmation` always carries
`ttl = SevenDaysTTL = 604800`; its text starts with the fixed success
preamble, contains the fixed base URL followed by the full `owner/name`
identifier, and ends with the appended description line iff the description
is non-empty. -/
theorem C5_confirmation (cfg : Config) (repoFullName repoDesc : String)
    (notifOk : Bool) :
    ∃ msg : SlackLinerMessage,
      sendNewRepoConfirmation cfg repoFullName repoDesc notifOk =
        [(Push.notif msg, notifOk)] ∧
      msg.ttl = SevenDaysTTL ∧
      SevenDaysTTL = 604800 ∧
      ("âœ… New repository creation initiated!").data <+: msg.text.data ∧
      ("https://github.com/" ++ repoFullName).data <:+: msg.text.data ∧
      (("\n*Description:* " ++ repoDesc).data <:+ msg.text.data ↔
        repoDesc ≠ "") := by
  have htext : (confirmationText repoFullName repoDesc).data =
      ("âœ… New repository creation initiated!\n\n*Repository:* <").data ++
      ("https://github.com/" ++ repoFullName).data ++ ("|").data ++
      repoFullName.data ++ (">").data ++
      (if repoDesc = "" then [] else ("\n*Description:* " ++ repoDesc).data) := by
    by_cases hd : repoDesc = "" <;>
      simp [confirmationText, hd, String.data_append, List.append_assoc]
  refine ⟨_, rfl, rfl, rfl, ?_, ?_, ?_⟩
  · refine ⟨("\n\n*Repository:* <").data ++
      ("https://github.com/" ++ repoFullName).data ++ ("|").data ++
      repoFullName.data ++ (">").data ++
      (if repoDesc = "" then [] else ("\n*Description:* " ++ repoDesc).data), ?_⟩
    rw [htext]
    have hsplit : ("âœ… New repository creation initiated!\n\n*Repository:* <").data =
        ("âœ… New repository creation initiated!").data ++
          ("\n\n*Repository:* <").data := by decide
    rw [hsplit]
    simp [List.append_assoc]
  · refine ⟨("âœ… New repository creation initiated!\n\n*Repository:* <").data,
      ("|").data ++ repoFullName.data ++ (">").data ++
      (if repoDesc = "" then [] else ("\n*Description:* " ++ repoDesc).data), ?_⟩
    rw [htext]
    simp [List.append_assoc]
  · constructor
    · intro hsfx hdeq
      subst hdeq
      obtain ⟨t, ht⟩ := hsfx
      have h2 : (confirmationText repoFullName "").data.getLast? = some '>' := by
        rw [htext]
        have hite : (if ("" : String) = "" then ([] : List Char)
            else ("\n*Description:* " ++ "").data) = [] := by simp
        rw [hite, List.append_nil,
          List.getLast?_append_of_ne_nil _ (show (">").data ≠ [] by decide)]
        decide
      have h3 : (t ++ ("\n*Description:* " ++ "").data).getLast? = some ' ' := by
        rw [List.getLast?_append_of_ne_nil _ (by decide)]
        decide
      rw [ht, h2] at h3
      exact absurd h3 (by decide)
    · intro hd
      refine ⟨("âœ… New repository creation initiated!\n\n*Repository:* <").data ++
        ("https://github.com/" ++ repoFullName).data ++ ("|").data ++
        repoFullName.data ++ (">").data, ?_⟩
      rw [htext]
      simp [hd, String.data_append, List.append_assoc]

/-! ### Flattener lemmas -/

/-- In an association list with distinct keys, a member pair is what lookup
finds. -/
theorem lookup_of_mem {β : Type} (vs : List (String × β)) (g : String) (x : β) :
    (vs.map Prod.fst).Nodup → (g, x) ∈ vs → vs.lookup g = some x := by
  induction vs with
  | nil => intro _ hmem; cases hmem
  | cons p rest ih =>
      intro hnd hmem
      obtain ⟨k, v⟩ := p
      rw [List.map_cons, List.nodup_cons] at hnd
      obtain ⟨hp, hnd'⟩ := hnd
      rcases List.mem_cons.mp hmem with he | hm
      · obtain ⟨rfl, rfl⟩ := Prod.mk.injEq .. ▸ he
        simp [List.lookup]
      · have hb : (g == k) = false := by
          rw [beq_eq_false_iff_ne]
          intro he2
          exact hp (he2 ▸ List.mem_map.mpr ⟨(g, x), hm, rfl⟩)
        simp only [List.lookup, hb]
        exact ih hnd' hm

/-- Lookup misses the flattened map whenever the key is absent from the
original outer map. -/
theorem flatten_lookup_none (vs : List (String × List (String × ViewValue)))
    (g : String) : g ∉ vs.map Prod.fst → (flattenValues vs).lookup g = none := by
  induction vs with
  | nil => intro _; rfl
  | cons p rest ih =>
      intro hg
      obtain ⟨g', fs⟩ := p
      rw [List.map_cons] at hg
      have hgg : g ≠ g' := fun h => hg (h ▸ List.mem_cons_self _ _)
      have hg' : g ∉ rest.map Prod.fst := fun h => hg (List.mem_cons_of_mem _ h)
      cases fs with
      | nil =>
          have h1 : flattenValues ((g', []) :: rest) = flattenValues rest := by
            simp [flattenValues]
          rw [h1]
          exact ih hg'
      | cons av fs' =>
          have h1 : flattenValues ((g', av :: fs') :: rest) =
              (g', av.2.value) :: flattenValues rest := by
            simp [flattenValues]
          have hb : (g == g') = false := by
            rw [beq_eq_false_iff_ne]
            exact hgg
          rw [h1]
          simp only [List.lookup, hb]
          exact ih hg'

/-- With distinct outer keys, looking a group up in the flattened map is
looking it up in the nested map and taking its first field's value. -/
theorem flatten_lookup (vs : List (String × List (String × ViewValue)))
    (g : String) : (vs.map Prod.fst).Nodup →
    (flattenValues vs).lookup g =
      (vs.lookup g).bind fun fs => fs.head?.map fun av => av.2.value := by
  induction vs with
  | nil => intro _; rfl
  | cons p rest ih =>
      intro hnd
      obtain ⟨g', fs⟩ := p
      rw [List.map_cons, List.nodup_cons] at hnd
      obtain ⟨hp, hnd'⟩ := hnd
      by_cases hgg : g = g'
      · subst hgg
        cases fs with
        | nil =>
            have h1 : flattenValues ((g, []) :: rest) = flattenValues rest := by
              simp [flattenValues]
            rw [h1, flatten_lookup_none rest g hp]
            simp [List.lookup]
        | cons av fs' =>
            have h1 : flattenValues ((g, av :: fs') :: rest) =
                (g, av.2.value) :: flattenValues rest := by
              simp [flattenValues]
            rw [h1]
            simp [List.lookup]
      · have hb : (g == g') = false := by
          rw [beq_eq_false_iff_ne]
          exact hgg
        cases fs with
        | nil =>
            have h1 : flattenValues ((g', []) :: rest) = flattenValues rest := by
              simp [flattenValues]
            rw [h1, ih hnd']
            simp [List.lookup, hb]
        | cons av fs' =>
            have h1 : flattenValues ((g', av :: fs') :: rest) =
                (g', av.2.value) :: flattenValues rest := by
              simp [flattenValues]
            rw [h1]
            simp only [List.lookup, hb, ih hnd']

/-- When every group holds at most one field, flattening is the projection
of the entry multiset: group and value of each entry, in order. -/
theorem flatten_single (vs : List (String × List (String × ViewValue))) :
    (∀ p ∈ vs, p.2.length ≤ 1) →
    flattenValues vs =
      (vs.flatMap fun gv => gv.2.map fun av => (gv.1, av.1, av.2)).map
        (fun e => (e.1, e.2.2.value)) := by
  induction vs with
  | nil => intro _; rfl
  | cons p rest ih =>
      intro h1
      obtain ⟨g, fs⟩ := p
      have hp : fs.length ≤ 1 := h1 (g, fs) (List.mem_cons_self _ _)
      have hrest := fun q hq => h1 q (List.mem_cons_of_mem _ hq)
      cases fs with
      | nil =>
          have h2 : flattenValues ((g, ([] : List (String × ViewValue))) :: rest) =
              flattenValues rest := by
            simp [flattenValues]
          rw [h2, ih hrest, List.flatMap_cons]
          rfl
      | cons av fs' =>
          cases fs' with
          | nil =>
              have h2 : flattenValues ((g, [av]) :: rest) =
                  (g, av.2.value) :: flattenValues rest := by
                simp [flattenValues]
              rw [h2, ih hrest, List.flatMap_cons]
              rfl
          | cons b t => exact absurd hp (by simp)

/-! ### C6 — flattener on zero- and one-field groups -/

/-- C6: over a submission whose outer groups are distinct (as Go map keys
are), a zero-field group is absent from the flattened output, and a group
holding exactly one field maps to exactly that field's value. -/
theorem C6_flattener (sub : ViewSubmissionPayload)
    (hnd : (sub.view.state.values.map Prod.fst).Nodup) :
    (∀ g : String,
      (g, ([] : List (String × ViewValue))) ∈ sub.view.state.values →
        (extractViewValues sub).lookup g = none) ∧
    (∀ (g a : String) (v : ViewValue),
      (g, [(a, v)]) ∈ sub.view.state.values →
        (extractViewValues sub).lookup g = some v.value) := by
  constructor
  · intro g hmem
    rw [extractViewValues, flatten_lookup _ g hnd,
      lookup_of_mem _ g _ hnd hmem]
    rfl
  · intro g a v hmem
    rw [extractViewValues, flatten_lookup _ g hnd,
      lookup_of_mem _ g _ hnd hmem]
    rfl

/-! ### C7 — flattener determinism across iteration orders -/

/-- C7 (amended): when every group holds at most one field, the flattened
output does not depend on the iteration order — any two representations of
the same Go map flatten to outputs equal as maps (permutations of one
another). -/
theorem C7_order_independence (s1 s2 : ViewSubmissionPayload)
    (hsame : SameGoMap s1 s2)
    (h1 : ∀ p ∈ s1.view.state.values, p.2.length ≤ 1)
    (h2 : ∀ p ∈ s2.view.state.values, p.2.length ≤ 1) :
    (extractViewValues s1).Perm (extractViewValues s2) := by
  unfold SameGoMap at hsame
  obtain ⟨-, -, hperm⟩ := hsame
  rw [extractViewValues, extractViewValues, flatten_single _ h1,
    flatten_single _ h2]
  exact hperm.map _

/-! ### C4 — rejection paths -/

/-- C4: a submission whose callback id differs from the modal's constant, or
whose flattened values lack a non-empty `repo-name`, or whose `repo-name`
fails validation, produces no push at all: neither a task descriptor nor a
notification leaves the handler. -/
theorem C4_rejection (cfg : Config) (sub : ViewSubmissionPayload)
    (taskOk notifOk : Bool)
    (h : sub.view.callbackID ≠ NewRepoModalCallbackID ∨
         (extractViewValues sub).lookup ("repo-name") = none ∨
         (extractViewValues sub).lookup ("repo-name") = some "" ∨
         ∃ n, (extractViewValues sub).lookup ("repo-name") = some n ∧
           isValidRepoName n = false) :
    handleViewSubmission cfg sub taskOk notifOk = [] := by
  rcases h with h | h | h | ⟨n, hn, hv⟩
  · simp [handleViewSubmission, h]
  · by_cases hcb : sub.view.callbackID ≠ NewRepoModalCallbackID
    · simp [handleViewSubmission, hcb]
    · simp [handleViewSubmission, hcb, h]
  · by_cases hcb : sub.view.callbackID ≠ NewRepoModalCallbackID
    · simp [handleViewSubmission, hcb]
    · simp [handleViewSubmission, hcb, h]
  · by_cases hcb : sub.view.callbackID ≠ NewRepoModalCallbackID
    · simp [handleViewSubmission, hcb]
    · by_cases hne : n = ""
      · simp [handleViewSubmission, hcb, hn, hne]
      · simp [handleViewSubmission, hcb, hn, hne, hv]

/-! ### C8 — push ordering and failure behaviour -/

/-- Evaluation of the handler on a valid submission: the task push comes
first, and the notification push is attempted exactly when the task push
succeeded. -/
theorem handleViewSubmission_valid (cfg : Config) (sub : ViewSubmissionPayload)
    (taskOk notifOk : Bool) (n : String)
    (hcb : sub.view.callbackID = NewRepoModalCallbackID)
    (hn : (extractViewValues sub).lookup ("repo-name") = some n)
    (hne : n ≠ "") (hv : isValidRepoName n = true) :
    handleViewSubmission cfg sub taskOk notifOk =
      (Push.task (buildPoppitCommand cfg.githubOrg n
          (((extractViewValues sub).lookup ("repo-description")).getD "")
          cfg.workingDir), taskOk) ::
        (if taskOk then
          [(Push.notif
              { channel := cfg.slackChannelNewRepo
                text := confirmationText (cfg.githubOrg ++ "/" ++ n)
                  (((extractViewValues sub).lookup ("repo-description")).getD "")
                ttl := SevenDaysTTL }, notifOk)]
        else []) := by
  simp [handleViewSubmission, hcb, hn, hne, hv, sendNewRepoConfirmation]

/-- C8: on a valid submission the trace starts with the task push; the
notification push appears exactly when the task push succeeded (so a failed
task push emits nothing further), and after a successful task push the task
remains in the trace whatever the notification outcome — there is no
rollback step. -/
theorem C8_push_order (cfg : Config) (sub : ViewSubmissionPayload)
    (taskOk notifOk : Bool) (n : String)
    (hcb : sub.view.callbackID = NewRepoModalCallbackID)
    (hn : (extractViewValues sub).lookup ("repo-name") = some n)
    (hne : n ≠ "") (hv : isValidRepoName n = true) :
    ∃ cmd msg,
      handleViewSubmission cfg sub taskOk notifOk =
        (Push.task cmd, taskOk) ::
          (if taskOk then [(Push.notif msg, notifOk)] else []) ∧
      (taskOk = false →
        handleViewSubmission cfg sub taskOk notifOk = [(Push.task cmd, false)]) ∧
      (taskOk = true →
        (Push.task cmd, true) ∈ handleViewSubmission cfg sub taskOk notifOk) := by
  refine ⟨_, _, handleViewSubmission_valid cfg sub taskOk notifOk n hcb hn hne hv,
    ?_, ?_⟩
  · intro ht
    rw [handleViewSubmission_valid cfg sub taskOk notifOk n hcb hn hne hv, ht]
    simp
  · intro ht
    rw [handleViewSubmission_valid cfg sub taskOk notifOk n hcb hn hne hv, ht]
    simp

/-! ### Concrete payloads for witnesses and counterexamples -/

/-- A configuration with organisation `acme`, as in the spec's examples. -/
def cfgEx : Config :=
  { githubOrg := "acme", workingDir := "/tmp", slackChannelNewRepo := "#new-repo" }

/-- A submission whose repository name contains a space. -/
def subSpace : ViewSubmissionPayload :=
  { type := "view_submission"
    view := { callbackID := NewRepoModalCallbackID
              state := { values :=
                [(("repo-name"), [(("repo_name_input"),
                   { type := "plain_text_input", value := "my repo" })])] } } }

/-- A valid submission for repository `widget` with a description. -/
def subWidget : ViewSubmissionPayload :=
  { type := "view_submission"
    view := { callbackID := NewRepoModalCallbackID
              state := { values :=
                [ (("repo-name"), [(("repo_name_input"),
                    { type := "plain_text_input", value := "widget" })])
                , (("repo-description"), [(("repo_desc_input"),
                    { type := "plain_text_input", value := "A small tool" })]) ] } } }

/-- A submission with a one-field group and a zero-field group. -/
def subExample : ViewSubmissionPayload :=
  { type := "view_submission"
    view := { callbackID := NewRepoModalCallbackID
              state := { values :=
                [ (("repo-name"), [(("repo_name_input"),
                    { type := "plain_text_input", value := "ExampleRepo" })])
                , (("repo-description"), ([] : List (String × ViewValue))) ] } } }

/-- The same Go map as `subExample`, enumerated in the other outer order. -/
def subExampleSwap : ViewSubmissionPayload :=
  { type := "view_submission"
    view := { callbackID := NewRepoModalCallbackID
              state := { values :=
                [ (("repo-description"), ([] : List (String × ViewValue)))
                , (("repo-name"), [(("repo_name_input"),
                    { type := "plain_text_input", value := "ExampleRepo" })]) ] } } }

/-- A two-field group enumerated field-a first. -/
def subOrderA : ViewSubmissionPayload :=
  { type := "view_submission"
    view := { callbackID := NewRepoModalCallbackID
              state := { values :=
                [(("block-g"),
                  [ (("field-a"), { type := "plain_text_input", value := "first" })
                  , (("field-b"), { type := "plain_text_input", value := "second" }) ])] } } }

/-- The same Go map as `subOrderA`, enumerated field-b first — Go fixes no
iteration order for a map, even between two loops in one run. -/
def subOrderB : ViewSubmissionPayload :=
  { type := "view_submission"
    view := { callbackID := NewRepoModalCallbackID
              state := { values :=
                [(("block-g"),
                  [ (("field-b"), { type := "plain_text_input", value := "second" })
                  , (("field-a"), { type := "plain_text_input", value := "first" }) ])] } } }

/-- A submission whose repository name is the single dot. -/
def subDot : ViewSubmissionPayload :=
  { type := "view_submission"
    view := { callbackID := NewRepoModalCallbackID
              state := { values :=
                [(("repo-name"), [(("repo_name_input"),
                   { type := "plain_text_input", value := "." })])] } } }

/-! ### Witnesses and counterexamples -/

/-- Closed instance of C4: the space-bearing name `my repo` fails validation
and the handler emits nothing. -/
theorem C4_rejection_witness :
    ((extractViewValues subSpace).lookup ("repo-name") = some ("my repo") ∧
      isValidRepoName ("my repo") = false) ∧
    handleViewSubmission cfgEx subSpace true true = [] :=
  ⟨⟨by decide, by decide⟩,
   C4_rejection cfgEx subSpace true true
     (Or.inr (Or.inr (Or.inr ⟨"my repo", by decide, by decide⟩)))⟩

/-- Closed instance of C8 at a valid `widget` submission with the task push
succeeding and the notification push failing. -/
theorem C8_push_order_witness :
    (subWidget.view.callbackID = NewRepoModalCallbackID ∧
     (extractViewValues subWidget).lookup ("repo-name") = some ("widget") ∧
     ("widget" : String) ≠ "" ∧ isValidRepoName ("widget") = true) ∧
    (∃ cmd msg,
      handleViewSubmission cfgEx subWidget true false =
        (Push.task cmd, true) ::
          (if true then [(Push.notif msg, false)] else []) ∧
      ((true : Bool) = false →
        handleViewSubmission cfgEx subWidget true false = [(Push.task cmd, false)]) ∧
      ((true : Bool) = true →
        (Push.task cmd, true) ∈ handleViewSubmission cfgEx subWidget true false)) :=
  ⟨⟨rfl, by decide, by decide, by decide⟩,
   C8_push_order cfgEx subWidget true false ("widget") rfl (by decide) (by decide)
     (by decide)⟩

/-- Closed instance of C6 at `subExample`: the one-field group `repo-name`
flattens to its field's value and the zero-field group is absent. -/
theorem C6_flattener_witness :
    (subExample.view.state.values.map Prod.fst).Nodup ∧
    (extractViewValues subExample).lookup ("repo-name") = some ("ExampleRepo") ∧
    (extractViewValues subExample).lookup ("repo-description") = none :=
  ⟨by decide,
   (C6_flattener subExample (by decide)).2 ("repo-name") ("repo_name_input")
     ({ type := "plain_text_input", value := "ExampleRepo" }) (by decide),
   (C6_flattener subExample (by decide)).1 ("repo-description") (by decide)⟩

/-- C7 counterexample: `subOrderA` and `subOrderB` are the same Go value —
the same nested map up to iteration order, which Go leaves unspecified even
within a single run — yet the flattener extracts different outputs, so the
chosen field is not a function of the input map. -/
theorem C7_counterexample :
    SameGoMap subOrderA subOrderB ∧
    extractViewValues subOrderA ≠ extractViewValues subOrderB := by
  constructor
  · unfold SameGoMap
    exact ⟨rfl, rfl, by decide⟩
  · decide

/-- Closed instance of the amended C7 at `subExample`/`subExampleSwap`. -/
theorem C7_order_independence_witness :
    (SameGoMap subExample subExampleSwap ∧
     (∀ p ∈ subExample.view.state.values, p.2.length ≤ 1) ∧
     (∀ p ∈ subExampleSwap.view.state.values, p.2.length ≤ 1)) ∧
    (extractViewValues subExample).Perm (extractViewValues subExampleSwap) :=
  ⟨⟨⟨rfl, rfl, by decide⟩, by decide, by decide⟩,
   C7_order_independence subExample subExampleSwap ⟨rfl, rfl, by decide⟩
     (by decide) (by decide)⟩

/-! ### C9 — the two revisions agree -/

/-- C9: the current and the older appended revision define extensionally
equal helpers — the two validators agree on every string, and the two
flatteners give the same output on every nested state map. -/
theorem C9_revisions_equal :
    (∀ name : String, isValidRepoNameV0 name = isValidRepoName name) ∧
    (∀ (t cb : String) (vs : List (String × List (String × ViewValue))),
      extractViewValuesV0 { type := t, view := { state := { values := vs } } } =
        extractViewValues
          { type := t
            view := { callbackID := cb, state := { values := vs } } }) :=
  ⟨fun _ => rfl, fun _ _ _ => rfl⟩

/-! ### C10 — dot-only names pass validation -/

/-- C10: the validator accepts `.` and `..`; a submission naming the
repository `.` passes the whole pipeline, emitting a task descriptor whose
repo field `acme/.` ends in `/.`. -/
theorem C10_dot_names :
    isValidRepoName (".") = true ∧
    isValidRepoName ("..") = true ∧
    handleViewSubmission cfgEx subDot true true =
      (Push.task (buildPoppitCommand ("acme") (".") ("") ("/tmp")), true) ::
        [(Push.notif { channel := "#new-repo"
                       text := confirmationText ("acme/.") ("")
                       ttl := SevenDaysTTL }, true)] ∧
    (buildPoppitCommand ("acme") (".") ("") ("/tmp")).repo = "acme/." ∧
    ("/.").data <:+ (buildPoppitCommand ("acme") (".") ("") ("/tmp")).repo.data := by
  refine ⟨by decide, by decide, by decide, by decide, by decide⟩
